import Mathlib

/-
  Verification of the snapshot lifecycle engine of the save-game backup
  manager (src/backup.py).

  The embedding models the backup root directory as a list of named
  entries and translates the manager's operations from the source:

  * `get_backup_list`      — SaveBackupManager._get_backup_list (backup.py:509-512)
  * `cleanup_old_backups`  — SaveBackupManager._cleanup_old_backups (backup.py:495-507)
  * `create_backup`        — SaveBackupManager.create_backup (backup.py:591-717)
  * `recover_or_cleanup_tmp_dirs` — SaveBackupManager._recover_or_cleanup_tmp_dirs
                             (backup.py:514-589)
  * `safe_copy`            — SaveBackupManager._safe_copy (backup.py:459-485)
  * `restore_delete_phase` / `restore_copy_phase` — the two phases of
    SaveBackupManager.restore_backup (backup.py:830-874)
  * `compute_directory_sha256` — the directory digest (backup.py:93-118)

  Filesystem outcomes that depend on the environment (file locks, the
  EXDEV cross-device error from os.replace, metadata-write failures) are
  passed in explicitly, so each code path of the source is represented.
-/

namespace SaveBackup

/-! ## Characters-level string helpers -/

/-- Bytes fed to the running hash for a string payload. The source feeds
the UTF-8 encoding of the string (`h.update(s.encode('utf-8'))`); the
model feeds one abstract byte per character (the character's code point),
which is one-to-one for the ASCII names and digits the program produces. -/
def encodeStr (s : String) : List Nat := s.data.map Char.toNat

/-- Strict lexicographic comparison of character lists, the order Python
uses when sorting the name strings (`sorted`, `list.sort`). -/
def charListLtB : List Char → List Char → Bool
  | [], [] => false
  | [], _ :: _ => true
  | _ :: _, [] => false
  | a :: as, b :: bs => if a < b then true else if b < a then false else charListLtB as bs

/-- Strict lexicographic order on strings. -/
def strLtB (a b : String) : Bool := charListLtB a.data b.data

/-- Lexicographic order on strings (non-strict). -/
def strLeB (a b : String) : Bool := !(strLtB b a)

/-- Test used to recognise snapshot directories: the glob pattern
`backup_*` of `_get_backup_list` (backup.py:511) matches exactly the
names that start with `backup_`. -/
def glob_backup_match (n : String) : Bool := "backup_".data.isPrefixOf n.data

/-- Test used by the recovery scanner (backup.py:527): leftover staging
directories are recognised by the name starting with `.backup_`. -/
def staging_match (n : String) : Bool := ".backup_".data.isPrefixOf n.data

/-- Final snapshot name recovered from a staging name (backup.py:540-541):
strip the leading dot, then keep everything before the first remaining
dot (`name[1:].split('.', 1)[0]`). -/
def final_base (n : String) : String := String.mk ((n.data.drop 1).takeWhile (fun c => c ≠ '.'))

/-! ## The backup root state -/

/-- One directory entry of the backup root. `files` is the number of
files anywhere under the entry (what `sum(len(files) for os.walk(...))`
computes in the source); it is 0 for a plain file. -/
structure Entry where
  name : String
  isDir : Bool
  files : Nat
  deriving DecidableEq, Repr

/-- The backup root directory: its entries, in directory enumeration
order. -/
abbrev RootState := List Entry

/-- Removal of a directory tree by name (`_safe_rmtree` on
`backup_dir / n`). -/
def remove_name (n : String) (s : RootState) : RootState :=
  s.filter (fun e => e.name ≠ n)

/-- Descending lexicographic sort, the model of Python's
`sorted(..., reverse=True)` (backup.py:512). -/
def sortDescStr (l : List String) : List String :=
  List.insertionSort (fun a b : String => strLeB b a = true) l

/-- SaveBackupManager._get_backup_list (backup.py:509-512): glob the
backup root for `backup_*` and sort the names descending (newest
first, because the timestamp format is fixed width). -/
def get_backup_list (s : RootState) : List String :=
  sortDescStr ((s.map Entry.name).filter glob_backup_match)

/-- SaveBackupManager._cleanup_old_backups (backup.py:495-507): when the
listing exceeds `max_backups`, delete the entries beyond that index.
`fails n = true` models `_safe_rmtree` raising for snapshot `n`, in which
case the error is printed and the loop continues with the others. -/
def cleanup_old_backups (max_backups : Nat) (fails : String → Bool) (s : RootState) : RootState :=
  let backups := get_backup_list s
  if backups.length > max_backups then
    let toDelete := backups.drop max_backups
    s.filter (fun e => !(toDelete.contains e.name) || fails e.name)
  else s

/-! ## create_backup -/

/-- Outcome of the `os.replace` publish attempt (backup.py:663):
it succeeds, fails with `errno.EXDEV` (cross-device link), or fails
with some other OSError. -/
inductive ReplaceOutcome where
  | ok
  | exdev
  | err
  deriving DecidableEq, Repr

/-- Environment of one `create_backup` call: the timestamp used for the
snapshot name, the random suffix `mkdtemp` appends to the staging name,
the file count of the save directory, and the outcomes of the
environment-dependent steps (copy, publish, metadata write). -/
structure CreateEnv where
  ts : String
  tmp_suffix : String
  src_files : Nat
  copied_files : Nat
  copy_ok : Bool
  has_desc : Bool
  replace_out : ReplaceOutcome
  move_ok : Bool
  meta_ok : Bool
  deriving Repr

/-- Result of a `create_backup` call: the returned value (the published
snapshot name, or `none` for the no-data path and for failures), the
backup root afterwards, the recorded `move_method`, and the name of the
staging directory if one was created. -/
structure CreateOut where
  result : Option String
  state : RootState
  method : Option String
  staged : Option String
  deriving Repr

/-- SaveBackupManager.create_backup (backup.py:591-717).

Control flow from the source:
* zero files in the save directory → warn and return `None`
  (backup.py:607-610), before any staging directory is made;
* `mkdtemp` creates hidden staging `.backup_<ts>.<suffix>` inside the
  backup root (backup.py:635);
* `copytree` failure → the `finally` block removes the staging
  directory and the outer handler returns `None` (backup.py:702-717);
* the description sidecar is written into staging before publish
  (backup.py:650-652);
* publish: remove a pre-existing final path, then `os.replace`; on
  `EXDEV` fall back to `shutil.move` recording method `copied`,
  otherwise method `atomic`; any other error aborts (backup.py:658-677);
* the metadata sidecar is written after publish; failure is only
  logged (backup.py:679-697);
* `_cleanup_old_backups` runs after a successful publish
  (backup.py:710-711). -/
def create_backup (max_backups : Nat) (env : CreateEnv) (s : RootState) : CreateOut :=
  let backup_name := "backup_" ++ env.ts
  if env.src_files = 0 then
    { result := none, state := s, method := none, staged := none }
  else
    let tmp_name := "." ++ backup_name ++ "." ++ env.tmp_suffix
    let s1 := s ++ [{ name := tmp_name, isDir := true, files := 0 }]
    if env.copy_ok = false then
      { result := none, state := remove_name tmp_name s1, method := none,
        staged := some tmp_name }
    else
      let stagedFiles := env.copied_files + (if env.has_desc then 1 else 0)
      let s2 := remove_name tmp_name s1 ++ [{ name := tmp_name, isDir := true, files := stagedFiles }]
      let publish : String → CreateOut := fun method =>
        let sFinal0 := remove_name tmp_name (remove_name backup_name s2) ++
          [{ name := backup_name, isDir := true,
             files := stagedFiles + (if env.meta_ok then 1 else 0) }]
        { result := some backup_name,
          state := cleanup_old_backups max_backups (fun _ => false) sFinal0,
          method := some method, staged := some tmp_name }
      match env.replace_out with
      | .ok => publish "atomic"
      | .exdev =>
          if env.move_ok then publish "copied"
          else
            { result := none,
              state := remove_name tmp_name (remove_name backup_name s2),
              method := none, staged := some tmp_name }
      | .err =>
          { result := none,
            state := remove_name tmp_name (remove_name backup_name s2),
            method := none, staged := some tmp_name }

/-! ## Recovery scan -/

/-- One step of the recovery scan for a single directory entry
(backup.py:521-586): skip non-directories and names without the
`.backup_` staging form; remove empty staging directories; remove
staging directories whose final snapshot already exists; otherwise
rename the staging directory to its final name and write the recovery
metadata sidecar into it (one more file). -/
def recover_step (s : RootState) (e : Entry) : RootState :=
  if e.isDir = false then s
  else if staging_match e.name = false then s
  else if e.files = 0 then remove_name e.name s
  else
    let fb := final_base e.name
    if (s.map Entry.name).contains fb then remove_name e.name s
    else remove_name e.name s ++ [{ name := fb, isDir := true, files := e.files + 1 }]

/-- SaveBackupManager._recover_or_cleanup_tmp_dirs (backup.py:514-589):
iterate over the entries present in the backup root at scan start,
resolving each leftover staging directory. -/
def recover_or_cleanup_tmp_dirs (s : RootState) : RootState :=
  s.foldl recover_step s

/-! ## Resilient single-file copy -/

/-- Result of a `_safe_copy` call that returned normally: the file was
copied by `shutil.copy2`, copied by the Windows locked-file fallback, or
skipped without copying (`skip_locked_files`). -/
inductive CopyResult where
  | copied
  | fallbackCopied
  | skippedNoCopy
  deriving DecidableEq, Repr

/-- Loop of SaveBackupManager._safe_copy (backup.py:459-485), from a
given attempt number. `copy_ok i` tells whether `shutil.copy2` succeeds
on attempt `i`; `fb_ok i` whether the Windows fallback reader succeeds
(always `false` off Windows). The returned components are the result
(`Except.error` models re-raising the last error), the trace of
`time.sleep` delays between attempts, and the number of attempts made.
The `fuel` argument only bounds the recursion; `retries - attempt` is
always enough. -/
def safe_copy_loop (retries retry_delay : Nat) (skip_locked : Bool)
    (copy_ok fb_ok : Nat → Bool) : Nat → Nat → Except Unit CopyResult × List Nat × Nat
  | attempt, fuel =>
    if copy_ok attempt then (.ok .copied, [], 1)
    else if fb_ok attempt then (.ok .fallbackCopied, [], 1)
    else if attempt < retries then
      match fuel with
      | 0 => (.error (), [], 1)
      | f + 1 =>
          let r := safe_copy_loop retries retry_delay skip_locked copy_ok fb_ok (attempt + 1) f
          (r.1, retry_delay * attempt :: r.2.1, r.2.2 + 1)
    else if skip_locked then (.ok .skippedNoCopy, [], 1)
    else (.error (), [], 1)

/-- SaveBackupManager._safe_copy (backup.py:459-485): the attempt loop
`for attempt in range(1, max(1, self.retries) + 1)` starting at
attempt 1. `retry_delay` is in abstract time units (the source uses
float seconds; the delay before the next attempt is
`retry_delay * attempt`, backup.py:478). -/
def safe_copy (retries retry_delay : Nat) (skip_locked : Bool)
    (copy_ok fb_ok : Nat → Bool) : Except Unit CopyResult × List Nat × Nat :=
  safe_copy_loop retries retry_delay skip_locked copy_ok fb_ok 1 (max 1 retries)

/-! ## Restore -/

/-- Delete phase of SaveBackupManager.restore_backup (backup.py:830-853):
every entry of the save directory is removed except an entry literally
named `backups` and the script file itself (`item != Path(__file__)`).
`script` is the name of the backup script when it resides directly in
the save directory, `none` otherwise. -/
def restore_delete_phase (script : Option String) (saveEntries : List String) : List String :=
  saveEntries.filter (fun n => n = "backups" ∨ script = some n)

/-- Copy phase of SaveBackupManager.restore_backup (backup.py:855-874):
every entry of the chosen snapshot except the `.backup_description`
sidecar is copied into the save directory. -/
def restore_copy_phase (snapItems : List String) (saveEntries : List String) : List String :=
  saveEntries ++ snapItems.filter (fun n => n ≠ ".backup_description")

/-- The save directory after a restore: the delete phase runs first,
then the snapshot's contents are copied in (backup.py:830-874). -/
def restore_apply (script : Option String) (snapItems : List String)
    (saveEntries : List String) : List String :=
  restore_copy_phase snapItems (restore_delete_phase script saveEntries)

/-! ## Directory trees and the directory digest -/

/-- One file of a directory tree: its name, content bytes, and whether
it can be read. `readable = false` models `open` raising in
`compute_directory_sha256` (backup.py:115-117), after the relative path
and size were already fed to the hash. -/
structure FsFile where
  name : String
  content : List Nat
  readable : Bool
  deriving DecidableEq, Repr

/-- A directory tree: the files and the named subdirectories of each
directory, both in filesystem enumeration order. -/
inductive FsTree : Type where
  | node (files : List FsFile) (dirs : List (String × FsTree))

/-- Sort a list by a string key, ascending — the model of Python's
in-place `list.sort()` on names (backup.py:98-99). -/
def sortByKey {α : Type} (key : α → String) (l : List α) : List α :=
  List.insertionSort (fun a b => strLeB (key a) (key b) = true) l

/-- Bytes fed to the hash for one file (backup.py:100-117): the
'/'-normalized relative path, the decimal byte size (`stat.st_size`,
the content length), then the content read in chunks (their
concatenation is the content), or the `__unreadable__` marker when the
read fails. -/
def fileBytes (pfx : String) (f : FsFile) : List Nat :=
  encodeStr (pfx ++ f.name) ++ encodeStr (toString f.content.length) ++
    (if f.readable then f.content else encodeStr "__unreadable__")

mutual

/-- Byte stream fed to the hash by the `os.walk` loop of
`compute_directory_sha256` (backup.py:96-117): at every level the file
names and the subdirectory names are sorted, the files of the current
directory are fed first, then each subdirectory is visited in sorted
order (top-down walk). `pfx` is the relative path prefix of the current
directory ("" at the walk root). Subdirectory streams are computed
entry by entry and sorted by name afterwards, which feeds them in
exactly the sorted-descent order of the source. -/
def streamTree (pfx : String) : FsTree → List Nat
  | .node files dirs =>
      ((sortByKey FsFile.name files).map (fileBytes pfx)).flatten ++
        ((sortByKey Prod.fst (dirStreams pfx dirs)).map Prod.snd).flatten

/-- Streams of the subdirectories of a directory, each under its
extended relative-path prefix (`relpath` separators normalized to '/',
backup.py:104). -/
def dirStreams (pfx : String) : List (String × FsTree) → List (String × List Nat)
  | [] => []
  | (n, t) :: rest => (n, streamTree (pfx ++ n ++ "/") t) :: dirStreams pfx rest

end

/-- Lowercase hexadecimal digit for a value below 16. -/
def hexDigit (n : Nat) : Char :=
  if n < 10 then Char.ofNat (48 + n) else Char.ofNat (87 + n)

/-- Two lowercase hex characters for one byte. -/
def hexByte (n : Nat) : List Char :=
  [hexDigit (n / 16 % 16), hexDigit (n % 16)]

/-- Lowercase hexadecimal rendering of a byte stream. -/
def hexEncode (l : List Nat) : String :=
  String.mk (l.flatMap hexByte)

/-- compute_directory_sha256 (backup.py:93-118). The walk order and the
per-file hash feeding are embedded faithfully in `streamTree`;
`hashlib.sha256` itself is an external primitive of the Python standard
library and is modelled as an ideal digest: the lowercase hex rendering
of the accumulated input stream, which is deterministic in the stream
and distinguishes distinct streams, the contract the program relies
on. -/
def compute_directory_sha256 (t : FsTree) : String :=
  hexEncode (streamTree "" t)

mutual

/-- Canonical form of a tree: every entry list sorted by name,
recursively. Two trees describe the same relative-path-to-content
mapping — the same files with the same contents and sizes at the same
relative paths, differing only in filesystem enumeration order — exactly
when their canonical forms are equal. -/
def canonTree : FsTree → FsTree
  | .node files dirs => .node (sortByKey FsFile.name files) (sortByKey Prod.fst (canonDirs dirs))

/-- Canonical forms of the subdirectories, in place. -/
def canonDirs : List (String × FsTree) → List (String × FsTree)
  | [] => []
  | (n, t) :: rest => (n, canonTree t) :: canonDirs rest

end

/-- Decidable no-duplicates test on a list of names. -/
def nodupNames : List String → Bool
  | [] => true
  | n :: rest => !(rest.contains n) && nodupNames rest

mutual

/-- Well-formedness of a directory tree as a filesystem can produce it:
no two files of one directory share a name, and no two subdirectories
of one directory share a name. -/
def wfTree : FsTree → Bool
  | .node files dirs =>
      nodupNames (files.map FsFile.name) && nodupNames (dirs.map Prod.fst) && wfDirs dirs

/-- Well-formedness of every subdirectory. -/
def wfDirs : List (String × FsTree) → Bool
  | [] => true
  | (_, t) :: rest => wfTree t && wfDirs rest

end

/-- Files of the root directory of a tree. -/
def rootFiles : FsTree → List FsFile
  | .node files _ => files

/-- Writing one more file into the root of a directory
(`write_text` of a sidecar, backup.py:652 and backup.py:694). -/
def addRootFile (f : FsFile) : FsTree → FsTree
  | .node files dirs => .node (f :: files) dirs

/-- Snapshot content at publish time (backup.py:649-652): the copied
save data, plus the `.backup_description` sidecar written into staging
before the rename when a description was given. -/
def staged_snapshot_tree (copied : FsTree) (desc : Option (List Nat)) : FsTree :=
  match desc with
  | none => copied
  | some d => addRootFile { name := ".backup_description", content := d, readable := true } copied

/-- The checksum recorded in the metadata sidecar (backup.py:681): it is
computed over the published directory before `.backup_meta.json` is
written into it (backup.py:693-694); the recovery path does the same
(backup.py:571, 582-583). -/
def recorded_checksum (copied : FsTree) (desc : Option (List Nat)) : String :=
  compute_directory_sha256 (staged_snapshot_tree copied desc)

/-- The snapshot directory after the metadata sidecar has been written
into it (backup.py:693-694). -/
def final_snapshot_tree (copied : FsTree) (desc : Option (List Nat))
    (metaJson : List Nat) : FsTree :=
  addRootFile { name := ".backup_meta.json", content := metaJson, readable := true }
    (staged_snapshot_tree copied desc)

/-! ## Order facts for the lexicographic comparison -/

theorem charListLtB_nil_right : ∀ l : List Char, charListLtB l [] = false
  | [] => rfl
  | _ :: _ => rfl

theorem charListLtB_irrefl : ∀ l : List Char, charListLtB l l = false
  | [] => rfl
  | a :: as => by
      simp only [charListLtB, if_neg (lt_irrefl a)]
      exact charListLtB_irrefl as

theorem charListLtB_trans : ∀ (l1 l2 l3 : List Char), charListLtB l1 l2 = true →
    charListLtB l2 l3 = true → charListLtB l1 l3 = true
  | _, [], _, h1, _ => by rw [charListLtB_nil_right] at h1; exact absurd h1 (by simp)
  | _, _ :: _, [], _, h2 => by rw [charListLtB_nil_right] at h2; exact absurd h2 (by simp)
  | [], _ :: _, _ :: _, _, _ => rfl
  | a :: as, b :: bs, c :: cs, h1, h2 => by
      rcases lt_trichotomy a b with hab | hab | hab
      · rcases lt_trichotomy b c with hbc | hbc | hbc
        · simp only [charListLtB, if_pos (lt_trans hab hbc)]
        · subst hbc; simp only [charListLtB, if_pos hab]
        · rw [charListLtB, if_neg (lt_asymm hbc), if_pos hbc] at h2
          exact absurd h2 (by simp)
      · subst hab
        rw [charListLtB, if_neg (lt_irrefl a), if_neg (lt_irrefl a)] at h1
        rcases lt_trichotomy a c with hac | hac | hac
        · simp only [charListLtB, if_pos hac]
        · subst hac
          rw [charListLtB, if_neg (lt_irrefl a), if_neg (lt_irrefl a)] at h2 ⊢
          exact charListLtB_trans as bs cs h1 h2
        · rw [charListLtB, if_neg (lt_asymm hac), if_pos hac] at h2
          exact absurd h2 (by simp)
      · rw [charListLtB, if_neg (lt_asymm hab), if_pos hab] at h1
        exact absurd h1 (by simp)

theorem charListLtB_eq_of_not : ∀ (l1 l2 : List Char), charListLtB l1 l2 = false →
    charListLtB l2 l1 = false → l1 = l2
  | [], [], _, _ => rfl
  | [], _ :: _, h1, _ => absurd h1 (by simp [charListLtB])
  | _ :: _, [], _, h2 => absurd h2 (by simp [charListLtB])
  | a :: as, b :: bs, h1, h2 => by
      rcases lt_trichotomy a b with hab | hab | hab
      · rw [charListLtB, if_pos hab] at h1; exact absurd h1 (by simp)
      · subst hab
        rw [charListLtB, if_neg (lt_irrefl a), if_neg (lt_irrefl a)] at h1 h2
        rw [charListLtB_eq_of_not as bs h1 h2]
      · rw [charListLtB, if_pos hab] at h2; exact absurd h2 (by simp)

theorem strLtB_irrefl (a : String) : strLtB a a = false := charListLtB_irrefl _

theorem strLtB_trans {a b c : String} (h1 : strLtB a b = true) (h2 : strLtB b c = true) :
    strLtB a c = true := charListLtB_trans _ _ _ h1 h2

theorem strLtB_asymm {a b : String} (h : strLtB a b = true) : strLtB b a = false := by
  cases h2 : strLtB b a with
  | false => rfl
  | true => exact absurd (strLtB_trans h h2) (by simp [strLtB_irrefl])

theorem strLtB_eq_of_not {a b : String} (h1 : strLtB a b = false) (h2 : strLtB b a = false) :
    a = b := String.ext (charListLtB_eq_of_not _ _ h1 h2)

theorem strLeB_iff {a b : String} : strLeB a b = true ↔ strLtB b a = false := by
  simp [strLeB]

theorem strLtB_le {a b : String} (h : strLtB a b = true) : strLeB a b = true :=
  strLeB_iff.mpr (strLtB_asymm h)

theorem strLeB_total (a b : String) : strLeB a b = true ∨ strLeB b a = true := by
  cases h : strLtB b a with
  | false => exact Or.inl (strLeB_iff.mpr h)
  | true => exact Or.inr (strLeB_iff.mpr (strLtB_asymm h))

theorem strLeB_trans {a b c : String} (h1 : strLeB a b = true) (h2 : strLeB b c = true) :
    strLeB a c = true := by
  rw [strLeB_iff] at h1 h2 ⊢
  cases hca : strLtB c a with
  | false => rfl
  | true =>
      cases hbc : strLtB b c with
      | false =>
          rw [strLtB_eq_of_not hbc h2] at h1
          rw [h1] at hca
          exact absurd hca (by simp)
      | true =>
          rw [strLtB_trans hbc hca] at h1
          exact absurd h1 (by simp)

theorem strLeB_antisymm {a b : String} (h1 : strLeB a b = true) (h2 : strLeB b a = true) :
    a = b := strLtB_eq_of_not (strLeB_iff.mp h2) (strLeB_iff.mp h1)

theorem strLtB_of_le_ne {a b : String} (h1 : strLeB a b = true) (h2 : a ≠ b) :
    strLtB a b = true := by
  cases h : strLtB a b with
  | false => exact absurd (strLtB_eq_of_not h (strLeB_iff.mp h1)) h2
  | true => rfl

/-! ## Sorting lemmas -/

theorem sortDescStr_sorted (l : List String) :
    (sortDescStr l).Pairwise (fun a b => strLeB b a = true) := by
  haveI : IsTotal String (fun a b : String => strLeB b a = true) :=
    ⟨fun a b => (strLeB_total b a)⟩
  haveI : IsTrans String (fun a b : String => strLeB b a = true) :=
    ⟨fun _ _ _ h1 h2 => strLeB_trans h2 h1⟩
  exact List.sorted_insertionSort _ l

theorem sortDescStr_perm (l : List String) : (sortDescStr l).Perm l :=
  List.perm_insertionSort _ l

/-- A descending sorted permutation of `l` is `sortDescStr l`. -/
theorem sortDescStr_eq {l m : List String} (hperm : m.Perm l)
    (hsort : m.Pairwise (fun a b => strLeB b a = true)) : sortDescStr l = m := by
  haveI : IsAntisymm String (fun a b : String => strLeB b a = true) :=
    ⟨fun _ _ h1 h2 => strLeB_antisymm h2 h1⟩
  exact List.eq_of_perm_of_sorted ((sortDescStr_perm l).trans hperm.symm)
    (sortDescStr_sorted l) hsort

/-- Appending a strict upper bound and sorting puts it first. -/
theorem sortDescStr_append_max {l : List String} {m : String}
    (h : ∀ x ∈ l, strLtB x m = true) : sortDescStr (l ++ [m]) = m :: sortDescStr l := by
  refine sortDescStr_eq ?_ ?_
  · exact ((sortDescStr_perm l).cons m).trans (List.perm_append_singleton m l).symm
  · rw [List.pairwise_cons]
    refine ⟨fun x hx => strLtB_le (h x ((sortDescStr_perm l).mem_iff.mp hx)), sortDescStr_sorted l⟩

/-- Descending sort of a strictly ascending list is its reverse. -/
theorem sortDescStr_ascending {l : List String}
    (h : l.Pairwise (fun a b => strLtB a b = true)) : sortDescStr l = l.reverse := by
  refine sortDescStr_eq (List.reverse_perm l) ?_
  rw [List.pairwise_reverse]
  exact h.imp strLtB_le

/-- Sorting commutes with filtering. -/
theorem sortDescStr_filter (p : String → Bool) (l : List String) :
    sortDescStr (l.filter p) = (sortDescStr l).filter p :=
  sortDescStr_eq ((sortDescStr_perm l).filter p) ((sortDescStr_sorted l).filter p)

theorem sortByKey_sorted {α : Type} (key : α → String) (l : List α) :
    (sortByKey key l).Pairwise (fun a b => strLeB (key a) (key b) = true) := by
  haveI : IsTotal α (fun a b => strLeB (key a) (key b) = true) :=
    ⟨fun a b => strLeB_total (key a) (key b)⟩
  haveI : IsTrans α (fun a b => strLeB (key a) (key b) = true) :=
    ⟨fun _ _ _ h1 h2 => strLeB_trans h1 h2⟩
  exact List.sorted_insertionSort _ l

theorem sortByKey_perm {α : Type} (key : α → String) (l : List α) :
    (sortByKey key l).Perm l := List.perm_insertionSort _ l

/-- On lists with no duplicate keys, sorting by key depends only on the
multiset of elements. -/
theorem sortByKey_eq_of_perm {α : Type} (key : α → String) {l1 l2 : List α}
    (hperm : l1.Perm l2) (hnd : (l1.map key).Nodup) :
    sortByKey key l1 = sortByKey key l2 := by
  haveI : IsAntisymm α (fun a b => strLtB (key a) (key b) = true) :=
    ⟨fun a b h1 h2 => absurd h2 (by rw [strLtB_asymm h1]; simp)⟩
  have strict : ∀ (l : List α), (l.map key).Nodup →
      (sortByKey key l).Pairwise (fun a b => strLtB (key a) (key b) = true) := by
    intro l hl
    have hnds : ((sortByKey key l).map key).Nodup :=
      (((sortByKey_perm key l).map key).nodup_iff).mpr hl
    have hne : (sortByKey key l).Pairwise (fun a b => key a ≠ key b) :=
      List.pairwise_map.mp hnds
    exact ((sortByKey_sorted key l).and hne).imp
      (fun h => strLtB_of_le_ne h.1 h.2)
  have h2nd : (l2.map key).Nodup := ((hperm.map key).nodup_iff).mp hnd
  exact List.eq_of_perm_of_sorted
    ((sortByKey_perm key l1).trans (hperm.trans (sortByKey_perm key l2).symm))
    (strict l1 hnd) (strict l2 h2nd)

/-! ## Name-shape facts -/

theorem glob_backup_match_head {n : String} (h : glob_backup_match n = true) :
    n.data.head? = some 'b' := by
  obtain ⟨t, ht⟩ := List.isPrefixOf_iff_prefix.mp h
  rw [← ht]
  rfl

theorem staging_match_head {n : String} (h : staging_match n = true) :
    n.data.head? = some '.' := by
  obtain ⟨t, ht⟩ := List.isPrefixOf_iff_prefix.mp h
  rw [← ht]
  rfl

theorem glob_backup_match_append (t : String) : glob_backup_match ("backup_" ++ t) = true := by
  unfold glob_backup_match
  rw [String.data_append]
  exact List.isPrefixOf_iff_prefix.mpr ⟨t.data, rfl⟩

theorem dot_head (x : String) : ("." ++ x).data.head? = some '.' := by
  rw [String.data_append]
  rfl

/-- The recovered final name of a staging directory never has the
staging form again: it starts with the letter `b` of `backup_`. -/
theorem staging_match_final_base {n : String} (h : staging_match n = true) :
    staging_match (final_base n) = false := by
  obtain ⟨t, ht⟩ := List.isPrefixOf_iff_prefix.mp h
  cases hs : staging_match (final_base n) with
  | false => rfl
  | true =>
      have h1 := staging_match_head hs
      have h2 : (final_base n).data.head? = some 'b' := by
        show ((n.data.drop 1).takeWhile _).head? = some 'b'
        rw [← ht]
        rfl
      rw [h2] at h1
      exact absurd h1 (by simp)

/-- Every name produced by `glob_backup_match` fails the staging test:
published snapshots are never mistaken for staging directories. -/
theorem staging_match_of_glob {n : String} (h : glob_backup_match n = true) :
    staging_match n = false := by
  cases hs : staging_match n with
  | false => rfl
  | true =>
      have h1 := staging_match_head hs
      rw [glob_backup_match_head h] at h1
      exact absurd h1 (by simp)

/-! ## List helpers -/

/-- The last `k` elements of a list, in order. -/
def keepLast {α : Type} (k : Nat) (l : List α) : List α := (l.reverse.take k).reverse

theorem keepLast_of_le {α : Type} {k : Nat} {l : List α} (h : l.length ≤ k) :
    keepLast k l = l := by
  unfold keepLast
  rw [List.take_of_length_le (by simpa using h), List.reverse_reverse]

theorem keepLast_reverse {α : Type} (k : Nat) (l : List α) :
    (keepLast k l).reverse = l.reverse.take k := by
  simp [keepLast]

/-- Dropping to the last `k` elements first does not change the last `k`
elements of a later extension. -/
theorem keepLast_append {α : Type} (k : Nat) (l m2 : List α) :
    keepLast k (keepLast k l ++ m2) = keepLast k (l ++ m2) := by
  unfold keepLast
  rw [List.reverse_append, List.reverse_append, List.reverse_reverse]
  rw [List.take_append_eq_append_take, List.take_append_eq_append_take]
  congr 1
  rw [List.take_take, min_eq_left (Nat.sub_le _ _)]

theorem filter_not_mem_take {α : Type} [DecidableEq α] : ∀ (l : List α) (m : Nat),
    l.Nodup → l.filter (fun n => !((l.take m).contains n)) = l.drop m
  | [], _, _ => by simp
  | a :: as, 0, _ => by
      simp only [List.take_zero, List.drop_zero]
      refine List.filter_eq_self.mpr (fun x _ => by simp [List.contains])
  | a :: as, m + 1, h => by
      have hnd := List.nodup_cons.mp h
      rw [List.take_succ_cons, List.drop_succ_cons, List.filter_cons]
      have hpa : (!((a :: as.take m).contains a)) = false := by
        simp [List.contains_cons]
      rw [hpa]
      simp only [Bool.false_eq_true, if_false]
      rw [List.filter_congr (fun x hx => ?_), filter_not_mem_take as m hnd.2]
      have hxa : x ≠ a := fun hxeq => hnd.1 (hxeq ▸ hx)
      simp [List.contains_cons, hxa]

theorem map_name_filter (p : String → Bool) (s : RootState) :
    (s.filter (fun e => p e.name)).map Entry.name = (s.map Entry.name).filter p := by
  rw [List.filter_map]
  rfl

theorem remove_name_eq_self {n : String} {s : RootState} (h : ∀ e ∈ s, e.name ≠ n) :
    remove_name n s = s :=
  List.filter_eq_self.mpr (fun e he => by simp [h e he])

theorem mem_get_backup_list {s : RootState} {n : String} :
    n ∈ get_backup_list s ↔ n ∈ s.map Entry.name ∧ glob_backup_match n = true := by
  unfold get_backup_list
  rw [(sortDescStr_perm _).mem_iff, List.mem_filter]

/-! ## Shape of create_backup runs -/

/-- The hidden staging name `mkdtemp` produces for a `create_backup`
call: `.backup_<ts>.<suffix>` (backup.py:635). -/
def staging_name (env : CreateEnv) : String :=
  "." ++ ("backup_" ++ env.ts) ++ "." ++ env.tmp_suffix

/-- Number of files in the fully copied staging directory: the copied
save files plus the description sidecar if one was written
(backup.py:638-652). -/
def staged_files (env : CreateEnv) : Nat :=
  env.copied_files + (if env.has_desc then 1 else 0)

theorem create_backup_no_data (k : Nat) (env : CreateEnv) (s : RootState)
    (hsf : env.src_files = 0) :
    create_backup k env s = { result := none, state := s, method := none, staged := none } := by
  simp [create_backup, hsf]

theorem create_backup_ok_eq (k : Nat) (env : CreateEnv) (s : RootState)
    (hsf : env.src_files ≠ 0) (hc : env.copy_ok = true) (hro : env.replace_out = .ok) :
    create_backup k env s =
      { result := some ("backup_" ++ env.ts),
        state := cleanup_old_backups k (fun _ => false)
          (remove_name (staging_name env) (remove_name ("backup_" ++ env.ts)
             (remove_name (staging_name env)
                (s ++ [{ name := staging_name env, isDir := true, files := 0 }]) ++
               [{ name := staging_name env, isDir := true, files := staged_files env }])) ++
           [{ name := "backup_" ++ env.ts, isDir := true,
              files := staged_files env + (if env.meta_ok then 1 else 0) }]),
        method := some "atomic",
        staged := some (staging_name env) } := by
  simp [create_backup, staging_name, staged_files, hsf, hc, hro]

theorem create_backup_exdev_eq (k : Nat) (env : CreateEnv) (s : RootState)
    (hsf : env.src_files ≠ 0) (hc : env.copy_ok = true) (hro : env.replace_out = .exdev)
    (hm : env.move_ok = true) :
    create_backup k env s =
      { result := some ("backup_" ++ env.ts),
        state := cleanup_old_backups k (fun _ => false)
          (remove_name (staging_name env) (remove_name ("backup_" ++ env.ts)
             (remove_name (staging_name env)
                (s ++ [{ name := staging_name env, isDir := true, files := 0 }]) ++
               [{ name := staging_name env, isDir := true, files := staged_files env }])) ++
           [{ name := "backup_" ++ env.ts, isDir := true,
              files := staged_files env + (if env.meta_ok then 1 else 0) }]),
        method := some "copied",
        staged := some (staging_name env) } := by
  simp [create_backup, staging_name, staged_files, hsf, hc, hro, hm]

theorem create_backup_fail_eq (k : Nat) (env : CreateEnv) (s : RootState)
    (hsf : env.src_files ≠ 0) (hc : env.copy_ok = true)
    (hfail : env.replace_out = .err ∨ (env.replace_out = .exdev ∧ env.move_ok = false)) :
    create_backup k env s =
      { result := none,
        state := remove_name (staging_name env) (remove_name ("backup_" ++ env.ts)
          (remove_name (staging_name env)
             (s ++ [{ name := staging_name env, isDir := true, files := 0 }]) ++
            [{ name := staging_name env, isDir := true, files := staged_files env }])),
        method := none,
        staged := some (staging_name env) } := by
  rcases hfail with hro | ⟨hro, hm⟩
  · simp [create_backup, staging_name, staged_files, hsf, hc, hro]
  · simp [create_backup, staging_name, staged_files, hsf, hc, hro, hm]

theorem staging_name_head (env : CreateEnv) : (staging_name env).data.head? = some '.' := by
  unfold staging_name
  rw [String.data_append, String.data_append, String.data_append]
  rfl

theorem staging_name_ne_backup (env : CreateEnv) (t : String) :
    staging_name env ≠ "backup_" ++ t := by
  intro h
  have h1 := staging_name_head env
  rw [h] at h1
  have h2 : ("backup_" ++ t).data.head? = some 'b' :=
    glob_backup_match_head (glob_backup_match_append t)
  rw [h2] at h1
  exact absurd h1 (by simp)

/-- On a backup root whose entries are none of them named like the fresh
staging directory or the fresh final snapshot, a successful
`create_backup` appends the new snapshot entry and prunes. -/
theorem create_backup_success_state (k : Nat) (env : CreateEnv) (s : RootState)
    (hsf : env.src_files ≠ 0) (hc : env.copy_ok = true)
    (hpub : env.replace_out = .ok ∨ (env.replace_out = .exdev ∧ env.move_ok = true))
    (htmp : ∀ e ∈ s, e.name ≠ staging_name env)
    (hbn : ∀ e ∈ s, e.name ≠ "backup_" ++ env.ts) :
    (create_backup k env s).result = some ("backup_" ++ env.ts) ∧
    (create_backup k env s).state = cleanup_old_backups k (fun _ => false)
      (s ++ [{ name := "backup_" ++ env.ts, isDir := true,
               files := staged_files env + (if env.meta_ok then 1 else 0) }]) := by
  have hstate : remove_name (staging_name env) (remove_name ("backup_" ++ env.ts)
      (remove_name (staging_name env)
         (s ++ [{ name := staging_name env, isDir := true, files := 0 }]) ++
        [{ name := staging_name env, isDir := true, files := staged_files env }])) = s := by
    rw [show remove_name (staging_name env)
        (s ++ [{ name := staging_name env, isDir := true, files := 0 }]) = s from ?_]
    · rw [show remove_name ("backup_" ++ env.ts)
          (s ++ [{ name := staging_name env, isDir := true, files := staged_files env }]) =
          s ++ [{ name := staging_name env, isDir := true, files := staged_files env }] from ?_]
      · unfold remove_name
        rw [List.filter_append]
        rw [List.filter_eq_self.mpr (fun e he => by simp [htmp e he])]
        simp
      · refine remove_name_eq_self (fun e he => ?_)
        rcases List.mem_append.mp he with h | h
        · exact hbn e h
        · rw [List.mem_singleton.mp h]
          exact staging_name_ne_backup env env.ts
    · unfold remove_name
      rw [List.filter_append]
      rw [List.filter_eq_self.mpr (fun e he => by simp [htmp e he])]
      simp
  rcases hpub with hro | ⟨hro, hm⟩
  · rw [create_backup_ok_eq k env s hsf hc hro]
    rw [hstate]
    exact ⟨rfl, rfl⟩
  · rw [create_backup_exdev_eq k env s hsf hc hro hm]
    rw [hstate]
    exact ⟨rfl, rfl⟩

theorem mem_of_cleanup {k : Nat} {fails : String → Bool} {s : RootState} {e : Entry}
    (h : e ∈ cleanup_old_backups k fails s) : e ∈ s := by
  simp only [cleanup_old_backups] at h
  split at h
  · exact (List.mem_filter.mp h).1
  · exact h

theorem mem_remove_name {n : String} {s : RootState} {e : Entry}
    (h : e ∈ remove_name n s) : e ∈ s ∧ e.name ≠ n := by
  have h' := List.mem_filter.mp h
  exact ⟨h'.1, by simpa using h'.2⟩

/-! ## Claim theorems -/

/-- C1 (staging invisibility invariant): the snapshot listing
`_get_backup_list` never returns a name that starts with a dot — in
particular never a staging directory — and every staging directory
`create_backup` makes has a name that starts with a dot, so only
`backup_*` names are ever visible to listing and restore. -/
theorem staging_invisibility :
    (∀ (s : RootState) (n : String), n.data.head? = some '.' → n ∉ get_backup_list s) ∧
    (∀ (k : Nat) (env : CreateEnv) (s : RootState) (t : String),
      (create_backup k env s).staged = some t → t.data.head? = some '.') := by
  constructor
  · intro s n hdot hmem
    have hmatch := (mem_get_backup_list.mp hmem).2
    rw [glob_backup_match_head hmatch] at hdot
    exact absurd hdot (by simp)
  · intro k env s t h
    by_cases hsf : env.src_files = 0
    · rw [create_backup_no_data k env s hsf] at h
      exact absurd h (by simp)
    · have hstag : (create_backup k env s).staged = none ∨
          (create_backup k env s).staged = some (staging_name env) := by
        by_cases hc : env.copy_ok = true
        · cases hro : env.replace_out with
          | ok => rw [create_backup_ok_eq k env s hsf hc hro]; exact Or.inr rfl
          | exdev =>
              cases hm : env.move_ok with
              | true => rw [create_backup_exdev_eq k env s hsf hc hro hm]; exact Or.inr rfl
              | false =>
                  rw [create_backup_fail_eq k env s hsf hc (Or.inr ⟨hro, hm⟩)]
                  exact Or.inr rfl
          | err => rw [create_backup_fail_eq k env s hsf hc (Or.inl hro)]; exact Or.inr rfl
        · have hc' : env.copy_ok = false := by simpa using hc
          right
          simp [create_backup, hsf, hc', staging_name]
      rcases hstag with h' | h'
      · rw [h'] at h; exact absurd h (by simp)
      · rw [h'] at h
        rw [← Option.some.inj h]
        exact staging_name_head env

/-- Witness for C1 at a concrete backup root and a concrete call. -/
theorem staging_invisibility_witness :
    (".backup_20240101_120000.tmp" ∉ get_backup_list
      [{ name := "backup_20240101_120000", isDir := true, files := 2 },
       { name := ".backup_20240101_120000.tmp", isDir := true, files := 2 }]) ∧
    (".backup_20240101_120000.tmp" : String).data.head? = some '.' :=
  ⟨staging_invisibility.1 _ _ (by decide),
   staging_invisibility.2 10
     { ts := "20240101_120000", tmp_suffix := "tmp", src_files := 1, copied_files := 1,
       copy_ok := true, has_desc := false, replace_out := .ok, move_ok := true,
       meta_ok := true } [] _ (by decide)⟩

/-- C7 (no-data fast path): with zero files in the save directory,
`create_backup` returns `None` ("no data") rather than an error, creates
no staging directory, adds nothing to the backup root, and leaves the
snapshot listing unchanged (backup.py:607-610). -/
theorem no_data_fast_path (k : Nat) (env : CreateEnv) (s : RootState)
    (h : env.src_files = 0) :
    (create_backup k env s).result = none ∧
    (create_backup k env s).staged = none ∧
    (create_backup k env s).state = s ∧
    get_backup_list (create_backup k env s).state = get_backup_list s := by
  rw [create_backup_no_data k env s h]
  exact ⟨rfl, rfl, rfl, rfl⟩

/-- Witness for C7 at a concrete call. -/
theorem no_data_fast_path_witness :
    (create_backup 5
      { ts := "20240101_120000", tmp_suffix := "tmp", src_files := 0, copied_files := 0,
        copy_ok := true, has_desc := false, replace_out := .ok, move_ok := true,
        meta_ok := true }
      [{ name := "backup_20230101_000000", isDir := true, files := 3 }]).result = none ∧
    (create_backup 5
      { ts := "20240101_120000", tmp_suffix := "tmp", src_files := 0, copied_files := 0,
        copy_ok := true, has_desc := false, replace_out := .ok, move_ok := true,
        meta_ok := true }
      [{ name := "backup_20230101_000000", isDir := true, files := 3 }]).staged = none ∧
    (create_backup 5
      { ts := "20240101_120000", tmp_suffix := "tmp", src_files := 0, copied_files := 0,
        copy_ok := true, has_desc := false, replace_out := .ok, move_ok := true,
        meta_ok := true }
      [{ name := "backup_20230101_000000", isDir := true, files := 3 }]).state =
      [{ name := "backup_20230101_000000", isDir := true, files := 3 }] ∧
    get_backup_list (create_backup 5
      { ts := "20240101_120000", tmp_suffix := "tmp", src_files := 0, copied_files := 0,
        copy_ok := true, has_desc := false, replace_out := .ok, move_ok := true,
        meta_ok := true }
      [{ name := "backup_20230101_000000", isDir := true, files := 3 }]).state =
      get_backup_list [{ name := "backup_20230101_000000", isDir := true, files := 3 }] :=
  no_data_fast_path 5 _ _ rfl

/-- C5 (publish step): a successful `os.replace` publishes the staging
directory under the final name and records method `atomic`; exactly
when the rename fails with `EXDEV`, `shutil.move` is used instead and
method `copied` is recorded; with any other rename error, or a failing
fallback move, the call fails; and any entry of the final state that
carries the snapshot's name is the freshly staged copy — a pre-existing
directory of that name was removed before publish (backup.py:654-677). -/
theorem publish_method (k : Nat) (env : CreateEnv) (s : RootState)
    (hsf : env.src_files ≠ 0) (hc : env.copy_ok = true) :
    (env.replace_out = .ok →
      (create_backup k env s).method = some "atomic" ∧
      (create_backup k env s).result = some ("backup_" ++ env.ts)) ∧
    (env.replace_out = .exdev → env.move_ok = true →
      (create_backup k env s).method = some "copied" ∧
      (create_backup k env s).result = some ("backup_" ++ env.ts)) ∧
    (env.replace_out = .exdev → env.move_ok = false →
      (create_backup k env s).result = none ∧ (create_backup k env s).method = none) ∧
    (env.replace_out = .err →
      (create_backup k env s).result = none ∧ (create_backup k env s).method = none) ∧
    (∀ e ∈ (create_backup k env s).state, e.name = "backup_" ++ env.ts →
      e.files = staged_files env + (if env.meta_ok then 1 else 0)) := by
  refine ⟨fun hro => ?_, fun hro hm => ?_, fun hro hm => ?_, fun hro => ?_, ?_⟩
  · rw [create_backup_ok_eq k env s hsf hc hro]; exact ⟨rfl, rfl⟩
  · rw [create_backup_exdev_eq k env s hsf hc hro hm]; exact ⟨rfl, rfl⟩
  · rw [create_backup_fail_eq k env s hsf hc (Or.inr ⟨hro, hm⟩)]; exact ⟨rfl, rfl⟩
  · rw [create_backup_fail_eq k env s hsf hc (Or.inl hro)]; exact ⟨rfl, rfl⟩
  · intro e he hn
    have hmem : e ∈ cleanup_old_backups k (fun _ => false)
        (remove_name (staging_name env) (remove_name ("backup_" ++ env.ts)
           (remove_name (staging_name env)
              (s ++ [{ name := staging_name env, isDir := true, files := 0 }]) ++
             [{ name := staging_name env, isDir := true, files := staged_files env }])) ++
         [{ name := "backup_" ++ env.ts, isDir := true,
            files := staged_files env + (if env.meta_ok then 1 else 0) }]) ∨
        e ∈ remove_name (staging_name env) (remove_name ("backup_" ++ env.ts)
          (remove_name (staging_name env)
             (s ++ [{ name := staging_name env, isDir := true, files := 0 }]) ++
            [{ name := staging_name env, isDir := true, files := staged_files env }])) := by
      cases hro : env.replace_out with
      | ok => rw [create_backup_ok_eq k env s hsf hc hro] at he; exact Or.inl he
      | exdev =>
          cases hm : env.move_ok with
          | true => rw [create_backup_exdev_eq k env s hsf hc hro hm] at he; exact Or.inl he
          | false =>
              rw [create_backup_fail_eq k env s hsf hc (Or.inr ⟨hro, hm⟩)] at he
              exact Or.inr he
      | err => rw [create_backup_fail_eq k env s hsf hc (Or.inl hro)] at he; exact Or.inr he
    have hleft : ∀ e' ∈ remove_name (staging_name env) (remove_name ("backup_" ++ env.ts)
        (remove_name (staging_name env)
           (s ++ [{ name := staging_name env, isDir := true, files := 0 }]) ++
          [{ name := staging_name env, isDir := true, files := staged_files env }])),
        e'.name ≠ "backup_" ++ env.ts := by
      intro e' he'
      exact (mem_remove_name (mem_remove_name he').1).2
    rcases hmem with hmem | hmem
    · rcases List.mem_append.mp (mem_of_cleanup hmem) with h' | h'
      · exact absurd hn (hleft e h')
      · rw [List.mem_singleton.mp h']
    · exact absurd hn (hleft e hmem)

/-- Witness for C5 at a concrete successful and a concrete cross-volume
call. -/
theorem publish_method_witness :
    (create_backup 3
      { ts := "20240101_120000", tmp_suffix := "ab", src_files := 2, copied_files := 2,
        copy_ok := true, has_desc := false, replace_out := .ok, move_ok := true,
        meta_ok := true } []).method = some "atomic" ∧
    (create_backup 3
      { ts := "20240101_120000", tmp_suffix := "ab", src_files := 2, copied_files := 2,
        copy_ok := true, has_desc := false, replace_out := .exdev, move_ok := true,
        meta_ok := true } []).method = some "copied" := by
  constructor
  · exact ((publish_method 3 _ [] (by decide) rfl).1 rfl).1
  · exact (((publish_method 3 _ [] (by decide) rfl).2.1 rfl) rfl).1

/-- C4 counterexample: the delete phase of `restore_backup` keeps an
entry only when it is literally named `backups` (or is the script file),
not when it is the configured backup root (backup.py:833). Here the
configured backup directory is `save_dir/mybackups`, nested under the
source directory, and the delete phase removes it, refuting the claim
that the configured backup directory always survives. -/
theorem restore_frame_counterexample :
    "mybackups" ∉ restore_delete_phase none ["mybackups", "save1.dat"] := by decide

/-- C4 amended: the delete phase of `restore_backup` removes every entry
of the source directory except entries literally named `backups` and the
script file itself; in particular an entry named `backups` always
survives (so the configured backup root survives exactly when it is
directly under the source directory with that literal name), and the
snapshot's contents (minus the description sidecar) are copied in only
after the delete phase, behind the surviving entries. -/
theorem restore_frame_amended :
    (∀ (script : Option String) (saveEntries : List String) (n : String),
      n ∈ restore_delete_phase script saveEntries ↔
        n ∈ saveEntries ∧ (n = "backups" ∨ script = some n)) ∧
    (∀ (script : Option String) (saveEntries : List String),
      "backups" ∈ saveEntries → "backups" ∈ restore_delete_phase script saveEntries) ∧
    (∀ (script : Option String) (snapItems saveEntries : List String),
      restore_apply script snapItems saveEntries =
        restore_delete_phase script saveEntries ++
          snapItems.filter (fun n => n ≠ ".backup_description")) := by
  have h1 : ∀ (script : Option String) (saveEntries : List String) (n : String),
      n ∈ restore_delete_phase script saveEntries ↔
        n ∈ saveEntries ∧ (n = "backups" ∨ script = some n) := by
    intro script saveEntries n
    unfold restore_delete_phase
    rw [List.mem_filter]
    simp
  exact ⟨h1, fun script saveEntries h => (h1 script saveEntries "backups").mpr ⟨h, Or.inl rfl⟩,
    fun _ _ _ => rfl⟩

/-- Witness for the amended C4 at a concrete save directory. -/
theorem restore_frame_amended_witness :
    "backups" ∈ restore_delete_phase none ["backups", "slot1.sav"] :=
  restore_frame_amended.2.1 none ["backups", "slot1.sav"] (by decide)

/-! ## Recovery scan lemmas -/

theorem recover_step_of_inert {t : RootState} {e : Entry}
    (h : e.isDir = true → staging_match e.name = false) : recover_step t e = t := by
  cases hd : e.isDir with
  | false => simp [recover_step, hd]
  | true => simp [recover_step, hd, h hd]

theorem foldl_recover_inert : ∀ (l : List Entry) (t : RootState),
    (∀ e ∈ l, e.isDir = true → staging_match e.name = false) →
    List.foldl recover_step t l = t
  | [], _, _ => rfl
  | a :: l, t, h => by
      rw [List.foldl_cons, recover_step_of_inert (h a (List.mem_cons_self a l))]
      exact foldl_recover_inert l t (fun e he => h e (List.mem_cons_of_mem a he))

theorem recover_fold_no_staging : ∀ (l : List Entry) (t : RootState),
    (∀ e ∈ t, (e.isDir = true → staging_match e.name = false) ∨ e ∈ l) →
    ∀ e ∈ List.foldl recover_step t l, e.isDir = true → staging_match e.name = false
  | [], t, h => fun e he => (h e he).resolve_right (List.not_mem_nil e)
  | a :: l, t, h => by
      rw [List.foldl_cons]
      refine recover_fold_no_staging l (recover_step t a) ?_
      intro e he
      by_cases hd : a.isDir = true
      · by_cases hsm : staging_match a.name = false
        · rw [recover_step_of_inert (fun _ => hsm)] at he
          rcases h e he with hP | hmem
          · exact Or.inl hP
          · rcases List.mem_cons.mp hmem with rfl | hm
            · exact Or.inl (fun _ => hsm)
            · exact Or.inr hm
        · have hsm' : staging_match a.name = true := by simpa using hsm
          have hstep : recover_step t a = remove_name a.name t ∨
              recover_step t a = remove_name a.name t ++
                [{ name := final_base a.name, isDir := true, files := a.files + 1 }] := by
            simp only [recover_step, hd, hsm']
            simp only [Bool.true_eq_false, if_false]
            by_cases hf : a.files = 0
            · rw [if_pos hf]; exact Or.inl rfl
            · rw [if_neg hf]
              by_cases hcon : (t.map Entry.name).contains (final_base a.name) = true
              · rw [if_pos hcon]; exact Or.inl rfl
              · rw [if_neg hcon]; exact Or.inr rfl
          have hleft : ∀ e' ∈ remove_name a.name t,
              (e'.isDir = true → staging_match e'.name = false) ∨ e' ∈ l := by
            intro e' he'
            have hm := mem_remove_name he'
            rcases h e' hm.1 with hP | hmem
            · exact Or.inl hP
            · rcases List.mem_cons.mp hmem with rfl | hm'
              · exact absurd rfl hm.2
              · exact Or.inr hm'
          rcases hstep with hstep | hstep
          · rw [hstep] at he
            exact hleft e he
          · rw [hstep] at he
            rcases List.mem_append.mp he with h' | h'
            · exact hleft e h'
            · rw [List.mem_singleton.mp h']
              exact Or.inl (fun _ => staging_match_final_base hsm')
      · have hd' : a.isDir = false := by simpa using hd
        rw [recover_step_of_inert (fun hdt => absurd (hd'.symm.trans hdt) (by simp))] at he
        rcases h e he with hP | hmem
        · exact Or.inl hP
        · rcases List.mem_cons.mp hmem with rfl | hm
          · exact Or.inl (fun hdt => absurd (hd'.symm.trans hdt) (by simp))
          · exact Or.inr hm

/-- C9 (recovery idempotence): after one recovery scan, no directory of
the backup root has the hidden `.backup_*` staging form any more —
every leftover staging directory was deleted or renamed to its final
name — so a second scan with no new crash in between finds nothing to
do and changes nothing. -/
theorem recovery_idempotence (s : RootState) :
    recover_or_cleanup_tmp_dirs (recover_or_cleanup_tmp_dirs s) =
      recover_or_cleanup_tmp_dirs s ∧
    ∀ e ∈ recover_or_cleanup_tmp_dirs s, e.isDir = true → staging_match e.name = false := by
  have hno : ∀ e ∈ recover_or_cleanup_tmp_dirs s, e.isDir = true → staging_match e.name = false :=
    recover_fold_no_staging s s (fun e he => Or.inr he)
  exact ⟨foldl_recover_inert _ _ hno, hno⟩

/-- Witness for C9 at a concrete backup root holding one populated
staging directory: the scan publishes it (with the metadata file added)
and a second scan is a no-op. -/
theorem recovery_idempotence_witness :
    recover_or_cleanup_tmp_dirs (recover_or_cleanup_tmp_dirs
      [{ name := ".backup_20240101_000000.ab", isDir := true, files := 2 },
       { name := "old.txt", isDir := false, files := 0 }]) =
      recover_or_cleanup_tmp_dirs
      [{ name := ".backup_20240101_000000.ab", isDir := true, files := 2 },
       { name := "old.txt", isDir := false, files := 0 }] ∧
    staging_match "backup_20240101_000000" = false :=
  ⟨(recovery_idempotence _).1,
   (recovery_idempotence
      [{ name := ".backup_20240101_000000.ab", isDir := true, files := 2 },
       { name := "old.txt", isDir := false, files := 0 }]).2
     { name := "backup_20240101_000000", isDir := true, files := 3 } (by decide) rfl⟩

/-! ## Safe copy lemmas -/

theorem safe_copy_loop_all_fail (retries delay : Nat) (skip : Bool)
    (cok fok : Nat → Bool) (hc : ∀ i, cok i = false) (hf : ∀ i, fok i = false) :
    ∀ (fuel attempt : Nat), retries - attempt ≤ fuel →
    safe_copy_loop retries delay skip cok fok attempt fuel =
      ((if skip then .ok .skippedNoCopy else .error ()),
       (List.range' attempt (retries - attempt)).map (fun i => delay * i),
       retries - attempt + 1)
  | 0, attempt, hle => by
      have hlt : ¬ attempt < retries := by omega
      have h0 : retries - attempt = 0 := by omega
      rw [safe_copy_loop, hc attempt, hf attempt, h0]
      simp [hlt]
      cases skip <;> simp
  | fuel + 1, attempt, hle => by
      rw [safe_copy_loop, hc attempt, hf attempt]
      by_cases hlt : attempt < retries
      · have hrec := safe_copy_loop_all_fail retries delay skip cok fok hc hf
          fuel (attempt + 1) (by omega)
        simp only [Bool.false_eq_true, if_false, hlt, if_true, if_pos hlt]
        rw [hrec]
        have h1 : retries - attempt = (retries - (attempt + 1)) + 1 := by omega
        rw [h1, List.range'_succ, List.map_cons]
      · have h0 : retries - attempt = 0 := by omega
        rw [h0]
        simp [hlt]
        cases skip <;> simp

/-- C6 (resilient copy termination): when the standard copy and the
locked-file fallback fail on every attempt, `_safe_copy` makes
`max(1, retries)` attempts, sleeping `retry_delay * attempt` between
attempt `attempt` and the next (linear backoff, attempts 1 to
retries-1), and then returns without copying when `skip_locked_files`
is set, otherwise re-raises the last error (backup.py:459-485). -/
theorem safe_copy_retry (retries delay : Nat) (skip : Bool) (cok fok : Nat → Bool)
    (hc : ∀ i, cok i = false) (hf : ∀ i, fok i = false) :
    safe_copy retries delay skip cok fok =
      ((if skip then .ok .skippedNoCopy else .error ()),
       (List.range' 1 (retries - 1)).map (fun i => delay * i),
       max 1 retries) := by
  unfold safe_copy
  rw [safe_copy_loop_all_fail retries delay skip cok fok hc hf (max 1 retries) 1 (by omega)]
  have h1 : retries - 1 + 1 = max 1 retries := by omega
  rw [h1]

/-- Witness for C6: three failing attempts with base delay 5, with and
without `skip_locked_files`. -/
theorem safe_copy_retry_witness :
    safe_copy 3 5 true (fun _ => false) (fun _ => false) = (.ok .skippedNoCopy, [5, 10], 3) ∧
    safe_copy 3 5 false (fun _ => false) (fun _ => false) = (.error (), [5, 10], 3) := by
  constructor
  · rw [safe_copy_retry 3 5 true _ _ (fun _ => rfl) (fun _ => rfl)]
    rfl
  · rw [safe_copy_retry 3 5 false _ _ (fun _ => rfl) (fun _ => rfl)]
    rfl

/-! ## Listing lemmas -/

theorem get_backup_list_append_fresh (s : RootState) (e : Entry)
    (hmatch : glob_backup_match e.name = true)
    (hfresh : ∀ n ∈ s.map Entry.name, glob_backup_match n = true → strLtB n e.name = true) :
    get_backup_list (s ++ [e]) = e.name :: get_backup_list s := by
  unfold get_backup_list
  rw [List.map_append, List.filter_append]
  have h1 : List.filter glob_backup_match (List.map Entry.name [e]) = [e.name] := by
    simp [hmatch]
  rw [h1]
  exact sortDescStr_append_max (fun x hx => hfresh x (List.mem_filter.mp hx).1
    (List.mem_filter.mp hx).2)

theorem not_mem_listing_of_fresh {s : RootState} {bn : String}
    (hfresh : ∀ n ∈ s.map Entry.name, glob_backup_match n = true → strLtB n bn = true) :
    bn ∉ get_backup_list s := by
  intro hmem
  have h := mem_get_backup_list.mp hmem
  have h2 := hfresh bn h.1 h.2
  rw [strLtB_irrefl] at h2
  exact absurd h2 (by simp)

/-- A fresh maximal snapshot entry appended to the root survives the
pruning pass and is visible in the listing afterwards. -/
theorem mem_listing_cleanup_fresh (k : Nat) (s : RootState) (e : Entry) (hk : 1 ≤ k)
    (hmatch : glob_backup_match e.name = true)
    (hfresh : ∀ n ∈ s.map Entry.name, glob_backup_match n = true → strLtB n e.name = true) :
    e.name ∈ get_backup_list (cleanup_old_backups k (fun _ => false) (s ++ [e])) := by
  have hlist : get_backup_list (s ++ [e]) = e.name :: get_backup_list s :=
    get_backup_list_append_fresh s e hmatch hfresh
  have hnot : e.name ∉ get_backup_list s := not_mem_listing_of_fresh hfresh
  simp only [cleanup_old_backups]
  split
  · have hnotdel : e.name ∉ (get_backup_list (s ++ [e])).drop k := by
      rw [hlist]
      cases k with
      | zero => exact absurd hk (by omega)
      | succ j =>
          rw [List.drop_succ_cons]
          exact fun hm => hnot (List.mem_of_mem_drop hm)
    have hcont : ((get_backup_list (s ++ [e])).drop k).contains e.name = false := by
      cases hcon : ((get_backup_list (s ++ [e])).drop k).contains e.name with
      | false => rfl
      | true => exact absurd (List.elem_iff.mp hcon) hnotdel
    refine mem_get_backup_list.mpr ⟨?_, hmatch⟩
    refine List.mem_map.mpr ⟨e, ?_, rfl⟩
    refine List.mem_filter.mpr ⟨List.mem_append_right s (List.mem_singleton_self _), ?_⟩
    simp [hcont, hnotdel]
  · rw [hlist]
    exact List.mem_cons_self _ _

/-- C8 (metadata is best-effort): with a successful publish and a failed
metadata write, `create_backup` still returns the published snapshot
path, and the snapshot is present and visible in the listing afterwards
(backup.py:679-697, 710-713). -/
theorem metadata_best_effort (k : Nat) (env : CreateEnv) (s : RootState)
    (hk : 1 ≤ k) (hsf : env.src_files ≠ 0) (hc : env.copy_ok = true)
    (hpub : env.replace_out = .ok ∨ (env.replace_out = .exdev ∧ env.move_ok = true))
    (hmeta : env.meta_ok = false)
    (htmp : ∀ e ∈ s, e.name ≠ staging_name env)
    (hfresh : ∀ n ∈ s.map Entry.name, glob_backup_match n = true →
      strLtB n ("backup_" ++ env.ts) = true) :
    (create_backup k env s).result = some ("backup_" ++ env.ts) ∧
    ("backup_" ++ env.ts) ∈ get_backup_list (create_backup k env s).state := by
  have hbn : ∀ e ∈ s, e.name ≠ "backup_" ++ env.ts := by
    intro e he heq
    have hm : e.name ∈ s.map Entry.name := List.mem_map.mpr ⟨e, he, rfl⟩
    have h2 := hfresh e.name hm (heq ▸ glob_backup_match_append env.ts)
    rw [heq, strLtB_irrefl] at h2
    exact absurd h2 (by simp)
  obtain ⟨hres, hstate⟩ := create_backup_success_state k env s hsf hc hpub htmp hbn
  refine ⟨hres, ?_⟩
  rw [hstate]
  exact mem_listing_cleanup_fresh k s _ hk (glob_backup_match_append env.ts) hfresh

/-- Witness for C8: one older snapshot, `max_backups = 1`, publish
succeeds, metadata write fails; the new snapshot is still returned and
listed. -/
theorem metadata_best_effort_witness :
    (create_backup 1
      { ts := "20240102_090000", tmp_suffix := "zz", src_files := 2, copied_files := 2,
        copy_ok := true, has_desc := true, replace_out := .ok, move_ok := true,
        meta_ok := false }
      [{ name := "backup_20230101_000000", isDir := true, files := 2 }]).result =
      some "backup_20240102_090000" ∧
    "backup_20240102_090000" ∈ get_backup_list (create_backup 1
      { ts := "20240102_090000", tmp_suffix := "zz", src_files := 2, copied_files := 2,
        copy_ok := true, has_desc := true, replace_out := .ok, move_ok := true,
        meta_ok := false }
      [{ name := "backup_20230101_000000", isDir := true, files := 2 }]).state := by
  have h := metadata_best_effort 1
    { ts := "20240102_090000", tmp_suffix := "zz", src_files := 2, copied_files := 2,
      copy_ok := true, has_desc := true, replace_out := .ok, move_ok := true,
      meta_ok := false }
    [{ name := "backup_20230101_000000", isDir := true, files := 2 }]
    (by decide) (by decide) rfl (Or.inl rfl) rfl (by decide) (by decide)
  have hstr : ("backup_" ++ "20240102_090000" : String) = "backup_20240102_090000" := by decide
  rw [hstr] at h
  exact h

/-! ## Retention machinery -/

theorem keepLast_eq_drop {α : Type} (k : Nat) (l : List α) :
    keepLast k l = l.drop (l.length - k) := by
  have h1 : (l.drop (l.length - k)).reverse = l.reverse.take (l.length - (l.length - k)) :=
    List.reverse_drop
  have h2 : l.length - (l.length - k) = min k l.length := by omega
  have h3 : l.reverse.take (min k l.length) = l.reverse.take k := by
    rw [List.take_eq_take]
    simp only [List.length_reverse]
    omega
  have h4 : (l.drop (l.length - k)).reverse = l.reverse.take k := by rw [h1, h2, h3]
  unfold keepLast
  rw [← h4, List.reverse_reverse]

theorem keepLast_sublist {α : Type} (k : Nat) (l : List α) : (keepLast k l).Sublist l := by
  rw [keepLast_eq_drop]
  exact List.drop_sublist _ _

theorem keepLast_length_le {α : Type} (k : Nat) (l : List α) : (keepLast k l).length ≤ k := by
  unfold keepLast
  rw [List.length_reverse, List.length_take]
  omega

theorem contains_iff {α : Type} [BEq α] [LawfulBEq α] {l : List α} {a : α} :
    l.contains a = true ↔ a ∈ l := List.elem_iff

theorem contains_reverse {α : Type} [BEq α] [LawfulBEq α] (l : List α) (a : α) :
    l.reverse.contains a = l.contains a := by
  by_cases hm : a ∈ l
  · rw [contains_iff.mpr hm, contains_iff.mpr (List.mem_reverse.mpr hm)]
  · have h1 : l.contains a = false := by
      cases hc : l.contains a with
      | false => rfl
      | true => exact absurd (contains_iff.mp hc) hm
    have h2 : l.reverse.contains a = false := by
      cases hc : l.reverse.contains a with
      | false => rfl
      | true => exact absurd (List.mem_reverse.mp (contains_iff.mp hc)) hm
    rw [h1, h2]

theorem filter_not_mem_drop {α : Type} [DecidableEq α] : ∀ (l : List α) (m : Nat),
    l.Nodup → l.filter (fun n => !((l.drop m).contains n)) = l.take m
  | [], _, _ => by simp
  | a :: as, 0, _ => by
      simp only [List.drop_zero, List.take_zero]
      refine List.filter_eq_nil_iff.mpr (fun x hx => ?_)
      have hc : (a :: as).contains x = true := contains_iff.mpr hx
      intro hcontra
      rw [hc] at hcontra
      exact absurd hcontra (by simp)
  | a :: as, m + 1, h => by
      have hnd := List.nodup_cons.mp h
      rw [List.drop_succ_cons, List.take_succ_cons, List.filter_cons]
      have hpa : (!((as.drop m).contains a)) = true := by
        cases hc2 : (as.drop m).contains a with
        | false => rfl
        | true => exact absurd (List.mem_of_mem_drop (List.elem_iff.mp hc2)) hnd.1
      simp only [hpa, if_true]
      rw [filter_not_mem_drop as m hnd.2]

theorem ne_staging_of_match {n : String} (h : glob_backup_match n = true) (env : CreateEnv) :
    n ≠ staging_name env := by
  intro heq
  have h1 := glob_backup_match_head h
  rw [heq, staging_name_head env] at h1
  exact absurd h1 (by simp)

theorem ne_of_strLtB {a b : String} (h : strLtB a b = true) : a ≠ b := by
  intro heq
  rw [heq, strLtB_irrefl] at h
  exact absurd h (by simp)

/-- Listing a backup root whose entry names are exactly an ascending
chain of `backup_*` names: the listing is the reversed chain. -/
theorem get_backup_list_asc {X : RootState} {A : List String}
    (hmapX : X.map Entry.name = A)
    (hmatchA : ∀ n ∈ A, glob_backup_match n = true)
    (hpwA : A.Pairwise (fun a b => strLtB a b = true)) :
    get_backup_list X = A.reverse := by
  unfold get_backup_list
  rw [hmapX, List.filter_eq_self.mpr hmatchA]
  exact sortDescStr_ascending hpwA

/-- Pruning a backup root whose entry names are an ascending chain of
`backup_*` names keeps exactly the last `max_backups` entries. -/
theorem map_name_cleanup_asc (k : Nat) (X : RootState) (A : List String)
    (hmapX : X.map Entry.name = A)
    (hmatchA : ∀ n ∈ A, glob_backup_match n = true)
    (hpwA : A.Pairwise (fun a b => strLtB a b = true)) :
    (cleanup_old_backups k (fun _ => false) X).map Entry.name = keepLast k A := by
  have hnd : A.Nodup := hpwA.imp ne_of_strLtB
  have hlist : get_backup_list X = A.reverse := get_backup_list_asc hmapX hmatchA hpwA
  simp only [cleanup_old_backups]
  split
  · next hlen =>
      rw [map_name_filter
        (fun n => !((List.drop k (get_backup_list X)).contains n) || false) X, hmapX, hlist]
      have hcongr : A.filter
          (fun n => !((A.reverse.drop k).contains n) || false) =
          A.filter (fun n => !((A.reverse.drop k).contains n)) :=
        List.filter_congr (fun x _ => by simp)
      rw [hcongr]
      have hrev : A.filter (fun n => !((A.reverse.drop k).contains n)) =
          (A.reverse.filter (fun n => !((A.reverse.drop k).contains n))).reverse := by
        rw [← List.filter_reverse, List.reverse_reverse]
      rw [hrev, filter_not_mem_drop A.reverse k (List.nodup_reverse.mpr hnd)]
      rfl
  · next hlen =>
      rw [hmapX]
      refine (keepLast_of_le ?_).symm
      rw [hlist, List.length_reverse] at hlen
      omega

/-- Listing commutes with filtering the root by a predicate on names. -/
theorem get_backup_list_filter (p : String → Bool) (s : RootState) :
    get_backup_list (s.filter (fun e => p e.name)) = (get_backup_list s).filter p := by
  unfold get_backup_list
  rw [map_name_filter p s, ← sortDescStr_filter, List.filter_filter, List.filter_filter]
  congr 1
  exact List.filter_congr (fun x _ => Bool.and_comm _ _)

/-- Characterisation of a failure-free pruning pass: the listing
afterwards is the first `max_backups` entries of the listing before. -/
theorem get_backup_list_cleanup (k : Nat) (s : RootState)
    (hnd : (s.map Entry.name).Nodup) :
    get_backup_list (cleanup_old_backups k (fun _ => false) s) = (get_backup_list s).take k := by
  have hLnd : (get_backup_list s).Nodup :=
    ((sortDescStr_perm _).nodup_iff).mpr (hnd.filter _)
  simp only [cleanup_old_backups]
  split
  · next hlen =>
      rw [get_backup_list_filter
        (fun n => !((List.drop k (get_backup_list s)).contains n) || false) s]
      rw [List.filter_congr (fun x _ =>
        (by simp : (!((List.drop k (get_backup_list s)).contains x) || false) =
          (!((List.drop k (get_backup_list s)).contains x))))]
      exact filter_not_mem_drop (get_backup_list s) k hLnd
  · next hlen =>
      exact (List.take_of_length_le (by omega)).symm

/-- Success conditions of one `create_backup` call: the save directory
has files, the copy completes, and the publish step succeeds (directly
or through the cross-volume fallback). -/
def env_success (env : CreateEnv) : Prop :=
  env.src_files ≠ 0 ∧ env.copy_ok = true ∧
    (env.replace_out = .ok ∨ (env.replace_out = .exdev ∧ env.move_ok = true))

instance (env : CreateEnv) : Decidable (env_success env) := by
  unfold env_success
  exact inferInstance

/-- A sequence of `create_backup` calls against the same manager,
threading the backup-root state (backup.py:591-717). -/
def run_creates (k : Nat) (envs : List CreateEnv) (s : RootState) : RootState :=
  envs.foldl (fun st env => (create_backup k env st).state) s

/-- Invariant of a run of successful `create_backup` calls with strictly
increasing snapshot names: the backup root always holds exactly the last
`max_backups` of the names seen so far, in ascending order. -/
theorem run_creates_names (k : Nat) : ∀ (envs : List CreateEnv) (s : RootState),
    (∀ env ∈ envs, env_success env) →
    ((s.map Entry.name ++ envs.map (fun e => "backup_" ++ e.ts)).Pairwise
      (fun a b => strLtB a b = true)) →
    (∀ n ∈ s.map Entry.name, glob_backup_match n = true) →
    (s.map Entry.name).length ≤ k →
    (run_creates k envs s).map Entry.name =
      keepLast k (s.map Entry.name ++ envs.map (fun e => "backup_" ++ e.ts))
  | [], s, _, _, _, hlen => by
      simp only [run_creates, List.foldl_nil, List.map_nil, List.append_nil]
      exact (keepLast_of_le hlen).symm
  | env :: envs, s, hsucc, hpw, hmatch, hlen => by
      obtain ⟨hsf, hc, hpub⟩ := hsucc env (List.mem_cons_self env envs)
      rw [List.map_cons, List.append_cons] at hpw
      have hsplit := List.pairwise_append.mp hpw
      have hsplitA := List.pairwise_append.mp hsplit.1
      have htmp : ∀ e ∈ s, e.name ≠ staging_name env := fun e he =>
        ne_staging_of_match (hmatch e.name (List.mem_map.mpr ⟨e, he, rfl⟩)) env
      have hbn : ∀ e ∈ s, e.name ≠ "backup_" ++ env.ts := fun e he =>
        ne_of_strLtB (hsplitA.2.2 e.name (List.mem_map.mpr ⟨e, he, rfl⟩)
          ("backup_" ++ env.ts) (List.mem_singleton_self _))
      obtain ⟨_, hstate⟩ := create_backup_success_state k env s hsf hc hpub htmp hbn
      have hmapX : ∀ e : Entry, (s ++ [e]).map Entry.name = s.map Entry.name ++ [e.name] := by
        intro e
        rw [List.map_append]
        rfl
      have hmatchA : ∀ n ∈ s.map Entry.name ++ ["backup_" ++ env.ts],
          glob_backup_match n = true := by
        intro n hn
        rcases List.mem_append.mp hn with h' | h'
        · exact hmatch n h'
        · rw [List.mem_singleton.mp h']
          exact glob_backup_match_append env.ts
      have hstep : (create_backup k env s).state.map Entry.name =
          keepLast k (s.map Entry.name ++ ["backup_" ++ env.ts]) := by
        rw [hstate]
        exact map_name_cleanup_asc k _ _ (hmapX _) hmatchA hsplit.1
      have hsub : (keepLast k (s.map Entry.name ++ ["backup_" ++ env.ts]) ++
          envs.map (fun e => "backup_" ++ e.ts)).Sublist
          ((s.map Entry.name ++ ["backup_" ++ env.ts]) ++
            envs.map (fun e => "backup_" ++ e.ts)) :=
        List.Sublist.append (keepLast_sublist _ _) (List.Sublist.refl _)
      have hrec := run_creates_names k envs (create_backup k env s).state
        (fun e he => hsucc e (List.mem_cons_of_mem env he))
        (by rw [hstep]; exact List.Pairwise.sublist hsub hpw)
        (by
          rw [hstep]
          intro n hn
          exact hmatchA n ((keepLast_sublist _ _).subset hn))
        (by rw [hstep]; exact keepLast_length_le _ _)
      have hfold : run_creates k (env :: envs) s =
          run_creates k envs (create_backup k env s).state := by
        simp only [run_creates, List.foldl_cons]
      rw [hfold, hrec, hstep, keepLast_append]
      congr 1
      simp

/-- C2 (retention invariant): starting from an empty backup root, after
any sequence of N successful `create_backup` calls with strictly
increasing timestamp names and `max_backups = k ≥ 1`, the listing holds
exactly `min N k` snapshots and they are the `k` most recently created,
newest first; a failure-free pruning pass keeps exactly the first `k`
entries of the newest-first listing (deleting exactly the older excess);
and when some deletions fail, each non-failing excess snapshot is still
deleted while a failing one remains (one failure does not stop the
rest), as in backup.py:495-507 and backup.py:710-711. -/
theorem retention_invariant :
    (∀ (k : Nat) (envs : List CreateEnv), 1 ≤ k →
      (∀ env ∈ envs, env_success env) →
      ((envs.map (fun e => "backup_" ++ e.ts)).Pairwise
        (fun a b => strLtB a b = true)) →
      get_backup_list (run_creates k envs []) =
        ((envs.map (fun e => "backup_" ++ e.ts)).reverse).take k ∧
      (get_backup_list (run_creates k envs [])).length = min envs.length k) ∧
    (∀ (k : Nat) (s : RootState), (s.map Entry.name).Nodup →
      get_backup_list (cleanup_old_backups k (fun _ => false) s) =
        (get_backup_list s).take k) ∧
    (∀ (k : Nat) (fails : String → Bool) (s : RootState) (n : String),
      (get_backup_list s).length > k → n ∈ (get_backup_list s).drop k →
      (fails n = false → n ∉ (cleanup_old_backups k fails s).map Entry.name) ∧
      (fails n = true → n ∈ s.map Entry.name →
        n ∈ (cleanup_old_backups k fails s).map Entry.name)) := by
  refine ⟨?_, ?_, ?_⟩
  · intro k envs hk hsucc hpw
    have hinv := run_creates_names k envs [] hsucc (by simpa using hpw)
      (by simp) (by simp)
    have hmatchK : ∀ n ∈ keepLast k (envs.map (fun e => "backup_" ++ e.ts)),
        glob_backup_match n = true := by
      intro n hn
      have hn2 := (keepLast_sublist _ _).subset hn
      obtain ⟨e, _, he⟩ := List.mem_map.mp hn2
      rw [← he]
      exact glob_backup_match_append e.ts
    have hpwK := List.Pairwise.sublist (keepLast_sublist k _) hpw
    have hlisting := get_backup_list_asc (by simpa using hinv) hmatchK hpwK
    constructor
    · rw [hlisting, keepLast_reverse]
    · rw [hlisting, List.length_reverse]
      unfold keepLast
      rw [List.length_reverse, List.length_take, List.length_reverse, List.length_map]
      omega
  · intro k s hnd
    exact get_backup_list_cleanup k s hnd
  · intro k fails s n hlen hmem
    have hcon : ((get_backup_list s).drop k).contains n = true := contains_iff.mpr hmem
    simp only [cleanup_old_backups]
    rw [if_pos hlen]
    constructor
    · intro hn hmm
      obtain ⟨e, hef, hname⟩ := List.mem_map.mp hmm
      have hp := (List.mem_filter.mp hef).2
      rw [hname, hcon, hn] at hp
      exact absurd hp (by simp)
    · intro hn hmm
      obtain ⟨e, he, hname⟩ := List.mem_map.mp hmm
      refine List.mem_map.mpr ⟨e, List.mem_filter.mpr ⟨he, ?_⟩, hname⟩
      rw [hname, hn]
      simp

/-- Witness for C2: two successful calls with `max_backups = 1` leave
exactly the newer snapshot; a concrete prune keeps the newest-first
head; and a failing deletion is isolated. -/
theorem retention_invariant_witness :
    get_backup_list (run_creates 1
      [{ ts := "20240101_000001", tmp_suffix := "aa", src_files := 1, copied_files := 1,
         copy_ok := true, has_desc := false, replace_out := .ok, move_ok := true,
         meta_ok := true },
       { ts := "20240101_000002", tmp_suffix := "bb", src_files := 1, copied_files := 1,
         copy_ok := true, has_desc := false, replace_out := .ok, move_ok := true,
         meta_ok := true }] []) = ["backup_20240101_000002"] := by
  have h := (retention_invariant.1 1
    [{ ts := "20240101_000001", tmp_suffix := "aa", src_files := 1, copied_files := 1,
       copy_ok := true, has_desc := false, replace_out := .ok, move_ok := true,
       meta_ok := true },
     { ts := "20240101_000002", tmp_suffix := "bb", src_files := 1, copied_files := 1,
       copy_ok := true, has_desc := false, replace_out := .ok, move_ok := true,
       meta_ok := true }]
    (by decide) (by decide) (by decide)).1
  rw [h]
  decide

/-! ## Directory-tree lemmas -/

theorem dirStreams_eq_map (pfx : String) : ∀ l : List (String × FsTree),
    dirStreams pfx l = l.map (fun p => (p.1, streamTree (pfx ++ p.1 ++ "/") p.2))
  | [] => rfl
  | (n, t) :: rest => by
      rw [dirStreams, List.map_cons, dirStreams_eq_map pfx rest]

theorem canonDirs_eq_map : ∀ l : List (String × FsTree),
    canonDirs l = l.map (fun p => (p.1, canonTree p.2))
  | [] => rfl
  | (n, t) :: rest => by
      rw [canonDirs, List.map_cons, canonDirs_eq_map rest]

theorem map_fst_dirStreams (pfx : String) (l : List (String × FsTree)) :
    (dirStreams pfx l).map Prod.fst = l.map Prod.fst := by
  rw [dirStreams_eq_map, List.map_map]
  rfl

theorem map_fst_canonDirs (l : List (String × FsTree)) :
    (canonDirs l).map Prod.fst = l.map Prod.fst := by
  rw [canonDirs_eq_map, List.map_map]
  rfl

theorem nodupNames_iff : ∀ l : List String, nodupNames l = true ↔ l.Nodup
  | [] => by simp [nodupNames]
  | n :: rest => by
      rw [nodupNames, Bool.and_eq_true, List.nodup_cons, nodupNames_iff rest]
      constructor
      · rintro ⟨h1, h2⟩
        refine ⟨fun hm => ?_, h2⟩
        rw [contains_iff.mpr hm] at h1
        exact absurd h1 (by simp)
      · rintro ⟨h1, h2⟩
        refine ⟨?_, h2⟩
        cases hc : rest.contains n with
        | false => rfl
        | true => exact absurd (contains_iff.mp hc) h1

theorem wfTree_node {files : List FsFile} {dirs : List (String × FsTree)}
    (h : wfTree (.node files dirs) = true) :
    (files.map FsFile.name).Nodup ∧ (dirs.map Prod.fst).Nodup ∧ wfDirs dirs = true := by
  rw [wfTree, Bool.and_eq_true, Bool.and_eq_true] at h
  exact ⟨(nodupNames_iff _).mp h.1.1, (nodupNames_iff _).mp h.1.2, h.2⟩

theorem wfDirs_head {n : String} {t : FsTree} {rest : List (String × FsTree)}
    (h : wfDirs ((n, t) :: rest) = true) : wfTree t = true ∧ wfDirs rest = true := by
  rw [wfDirs, Bool.and_eq_true] at h
  exact h

mutual

/-- The hash input stream does not change when the tree is replaced by
its canonical (fully sorted) form: the walk already sorts at every
level. -/
theorem streamTree_canon : ∀ (pfx : String) (t : FsTree), wfTree t = true →
    streamTree pfx (canonTree t) = streamTree pfx t
  | pfx, .node files dirs, h => by
      obtain ⟨hfn, hdn, hwd⟩ := wfTree_node h
      rw [canonTree, streamTree, streamTree]
      have hfiles : sortByKey FsFile.name (sortByKey FsFile.name files) =
          sortByKey FsFile.name files :=
        sortByKey_eq_of_perm FsFile.name (sortByKey_perm _ files)
          (((sortByKey_perm _ files).map FsFile.name).nodup_iff.mpr hfn)
      have hcanon : dirStreams pfx (canonDirs dirs) = dirStreams pfx dirs :=
        dirStreams_canon pfx dirs hwd
      have hperm : (dirStreams pfx (sortByKey Prod.fst (canonDirs dirs))).Perm
          (dirStreams pfx dirs) := by
        rw [dirStreams_eq_map, dirStreams_eq_map]
        exact (sortByKey_perm _ (canonDirs dirs)).map _ |>.trans
          (by rw [← dirStreams_eq_map, hcanon, dirStreams_eq_map])
      have hnd2 : ((dirStreams pfx (sortByKey Prod.fst (canonDirs dirs))).map
          Prod.fst).Nodup := by
        rw [map_fst_dirStreams]
        refine ((sortByKey_perm _ (canonDirs dirs)).map Prod.fst).nodup_iff.mpr ?_
        rw [map_fst_canonDirs]
        exact hdn
      have hdirs : sortByKey Prod.fst (dirStreams pfx (sortByKey Prod.fst (canonDirs dirs))) =
          sortByKey Prod.fst (dirStreams pfx dirs) :=
        sortByKey_eq_of_perm Prod.fst hperm hnd2
      rw [hfiles, hdirs]

theorem dirStreams_canon : ∀ (pfx : String) (l : List (String × FsTree)), wfDirs l = true →
    dirStreams pfx (canonDirs l) = dirStreams pfx l
  | _, [], _ => rfl
  | pfx, (n, t) :: rest, h => by
      obtain ⟨hwt, hwr⟩ := wfDirs_head h
      rw [canonDirs, dirStreams, dirStreams, streamTree_canon (pfx ++ n ++ "/") t hwt,
        dirStreams_canon pfx rest hwr]

end

/-- C3 (digest determinism): `compute_directory_sha256` depends only on
the relative-path-to-content-and-size mapping of the directory tree —
two well-formed trees whose canonical forms agree (the same files with
the same contents at every level, in any filesystem enumeration order)
get the same digest, because the walk sorts subdirectory and file names
at every level and feeds, per file, the relative path, the decimal
size, then the content; and the digest is a lowercase hex string
(backup.py:93-118). -/
theorem digest_determinism (t1 t2 : FsTree) (h1 : wfTree t1 = true) (h2 : wfTree t2 = true)
    (hmap : canonTree t1 = canonTree t2) :
    compute_directory_sha256 t1 = compute_directory_sha256 t2 ∧
    ∀ c ∈ (compute_directory_sha256 t1).data, c ∈ ("0123456789abcdef" : String).data := by
  constructor
  · unfold compute_directory_sha256
    rw [← streamTree_canon "" t1 h1, ← streamTree_canon "" t2 h2, hmap]
  · intro c hc
    have hdig : ∀ m : Nat, m < 16 → hexDigit m ∈ ("0123456789abcdef" : String).data := by
      decide
    have hc2 : c ∈ (streamTree "" t1).flatMap hexByte := hc
    obtain ⟨b, _, hb⟩ := List.mem_flatMap.mp hc2
    rcases List.mem_cons.mp hb with rfl | hb2
    · exact hdig _ (Nat.mod_lt _ (by decide))
    · rw [List.mem_singleton.mp hb2]
      exact hdig _ (Nat.mod_lt _ (by decide))

/-- Witness for C3: two trees with the same files and subdirectories in
different enumeration orders digest identically. -/
theorem digest_determinism_witness :
    compute_directory_sha256 (FsTree.node
        [{ name := "b.txt", content := [1, 2], readable := true },
         { name := "a.txt", content := [3], readable := true }]
        [("sub", FsTree.node [{ name := "y", content := [], readable := true },
                              { name := "x", content := [7], readable := true }] [])]) =
      compute_directory_sha256 (FsTree.node
        [{ name := "a.txt", content := [3], readable := true },
         { name := "b.txt", content := [1, 2], readable := true }]
        [("sub", FsTree.node [{ name := "x", content := [7], readable := true },
                              { name := "y", content := [], readable := true }] [])]) :=
  (digest_determinism _ _ (by decide) (by decide) rfl).1

/-! ## Stream length lemmas -/

theorem flatMap_hexByte_length : ∀ l : List Nat, (l.flatMap hexByte).length = 2 * l.length
  | [] => rfl
  | a :: l => by
      rw [List.flatMap_cons, List.length_append, flatMap_hexByte_length l]
      simp [hexByte]
      omega

theorem hexEncode_data_length (l : List Nat) : (hexEncode l).data.length = 2 * l.length :=
  flatMap_hexByte_length l

theorem length_streamTree (pfx : String) (files : List FsFile)
    (dirs : List (String × FsTree)) :
    (streamTree pfx (.node files dirs)).length =
      (files.map (fun f => (fileBytes pfx f).length)).sum +
      ((dirStreams pfx dirs).map (fun p => p.2.length)).sum := by
  rw [streamTree, List.length_append, List.length_flatten, List.length_flatten,
    List.map_map, List.map_map]
  congr 1
  · exact List.Perm.sum_eq ((sortByKey_perm _ files).map _)
  · exact List.Perm.sum_eq ((sortByKey_perm _ (dirStreams pfx dirs)).map _)

theorem fileBytes_length_pos (pfx : String) (f : FsFile) (h : f.name.data ≠ []) :
    0 < (fileBytes pfx f).length := by
  unfold fileBytes encodeStr
  rw [List.length_append, List.length_append, List.length_map, String.data_append,
    List.length_append]
  have := List.length_pos.mpr h
  omega

theorem length_streamTree_addRootFile (pfx : String) (f : FsFile) (t : FsTree) :
    (streamTree pfx (addRootFile f t)).length =
      (fileBytes pfx f).length + (streamTree pfx t).length := by
  cases t with
  | node files dirs =>
      rw [addRootFile, length_streamTree, length_streamTree, List.map_cons, List.sum_cons]
      omega

theorem digest_ne_of_length {t1 t2 : FsTree}
    (h : (streamTree "" t1).length ≠ (streamTree "" t2).length) :
    compute_directory_sha256 t1 ≠ compute_directory_sha256 t2 := by
  intro heq
  have hd := congrArg (fun s : String => s.data.length) heq
  have hl1 : (compute_directory_sha256 t1).data.length = 2 * (streamTree "" t1).length :=
    hexEncode_data_length _
  have hl2 : (compute_directory_sha256 t2).data.length = 2 * (streamTree "" t2).length :=
    hexEncode_data_length _
  simp only at hd
  rw [hl1, hl2] at hd
  omega

/-- C10 (checksum scope): the checksum recorded in the metadata sidecar
is the digest of the published snapshot directory before
`.backup_meta.json` is written into it, so it covers the
`.backup_description` sidecar (written into staging before publish) but
never the metadata file itself; consequently, recomputing the digest
over the snapshot directory after the metadata sidecar exists gives a
different value than the stored checksum (backup.py:649-652, 679-694;
the recovery path at backup.py:569-583 orders the same way). The
hypothesis states that the copied save data itself carries neither
sidecar name at its top level, which is what makes writing the sidecars
add files rather than overwrite. -/
theorem checksum_scope (copied : FsTree) (desc : Option (List Nat)) (metaJson : List Nat)
    (hname : ∀ f ∈ rootFiles copied,
      f.name ≠ ".backup_meta.json" ∧ f.name ≠ ".backup_description") :
    recorded_checksum copied desc = compute_directory_sha256 (staged_snapshot_tree copied desc) ∧
    (∀ d, desc = some d →
      ({ name := ".backup_description", content := d, readable := true } : FsFile) ∈
        rootFiles (staged_snapshot_tree copied desc)) ∧
    (∀ f ∈ rootFiles (staged_snapshot_tree copied desc), f.name ≠ ".backup_meta.json") ∧
    compute_directory_sha256 (final_snapshot_tree copied desc metaJson) ≠
      recorded_checksum copied desc := by
  refine ⟨rfl, ?_, ?_, ?_⟩
  · intro d hd
    subst hd
    cases copied with
    | node files dirs => exact List.mem_cons_self _ _
  · intro f hf
    cases hdesc : desc with
    | none =>
        rw [hdesc] at hf
        exact (hname f hf).1
    | some d =>
        rw [hdesc] at hf
        cases copied with
        | node files dirs =>
            rcases List.mem_cons.mp hf with rfl | hf2
            · intro hcontra
              exact absurd hcontra
                (show ¬ ((".backup_description" : String) = ".backup_meta.json") by decide)
            · exact (hname f hf2).1
  · have hlen : (streamTree "" (final_snapshot_tree copied desc metaJson)).length =
        (fileBytes ""
          { name := ".backup_meta.json", content := metaJson, readable := true }).length +
        (streamTree "" (staged_snapshot_tree copied desc)).length :=
      length_streamTree_addRootFile "" _ _
    have hpos : 0 < (fileBytes ""
        { name := ".backup_meta.json", content := metaJson, readable := true }).length :=
      fileBytes_length_pos "" _
        (show (".backup_meta.json" : String).data ≠ [] by decide)
    exact digest_ne_of_length (by omega)

/-- Witness for C10 at a concrete snapshot with a description. -/
theorem checksum_scope_witness :
    ({ name := ".backup_description", content := [100], readable := true } : FsFile) ∈
      rootFiles (staged_snapshot_tree
        (FsTree.node [{ name := "save.dat", content := [1, 2, 3], readable := true }] [])
        (some [100])) ∧
    compute_directory_sha256 (final_snapshot_tree
        (FsTree.node [{ name := "save.dat", content := [1, 2, 3], readable := true }] [])
        (some [100]) [9, 9]) ≠
      recorded_checksum
        (FsTree.node [{ name := "save.dat", content := [1, 2, 3], readable := true }] [])
        (some [100]) := by
  have h := checksum_scope
    (FsTree.node [{ name := "save.dat", content := [1, 2, 3], readable := true }] [])
    (some [100]) [9, 9] (by decide)
  exact ⟨h.2.1 [100] rfl, h.2.2.2⟩

end SaveBackup
